import Mathlib

/-!
Verification of the Bristol-671 wavelength-meter driver's response-parsing
and register-decoding core.

Python strings are modelled as `List Char`, Python `int` as `ℤ`, Python
`float` as `ℚ` (the decimal values the parsers extract, taken exactly),
and raising code as `Except`-returning functions.  Each definition below
mirrors one function or method of the repository; the theorems at the end
of the file settle the specification claims against these definitions.
-/

/-- Characters Python treats as whitespace for `str.strip()` / `str.split()`. -/
def isPySpace (c : Char) : Bool :=
  c.isWhitespace

/-- A run of `n` ASCII blanks. -/
def spaces (n : ℕ) : List Char :=
  List.replicate n ' '

/-- Drop leading and trailing characters satisfying `p` (Python `str.strip`). -/
def stripPred (p : Char → Bool) (l : List Char) : List Char :=
  ((l.dropWhile p).reverse.dropWhile p).reverse

/-- Python `str.strip()` with no argument: trim surrounding whitespace. -/
def stripWS (l : List Char) : List Char :=
  stripPred isPySpace l

/-- Python `str.strip(chars)`: trim surrounding characters drawn from `cs`. -/
def stripSet (cs : List Char) (l : List Char) : List Char :=
  stripPred (fun c => cs.contains c) l

/-- Python `str.split(sep)` for a one-character separator: split on every
occurrence, keeping empty fields; the result is never empty. -/
def splitOnChar (sep : Char) : List Char → List (List Char)
  | [] => [[]]
  | c :: cs =>
    if c = sep then [] :: splitOnChar sep cs
    else
      match splitOnChar sep cs with
      | [] => [[c]]
      | p :: ps => (c :: p) :: ps

/-- Python `str.partition(sep)` for a one-character separator, reduced to the
use the driver makes of it: `some (before, after)` at the first occurrence of
`sep`, `none` when `sep` does not occur (Python then returns an empty third
component, which the caller tests for). -/
def splitFirst (sep : Char) : List Char → Option (List Char × List Char)
  | [] => none
  | c :: cs =>
    if c = sep then some ([], cs)
    else (splitFirst sep cs).map (fun p => (c :: p.1, p.2))

/-- Accumulator worker for `splitWS`; `acc` holds the current word reversed. -/
def splitWSAux (acc l : List Char) : List (List Char) :=
  match l with
  | [] => if acc = [] then [] else [acc.reverse]
  | c :: cs =>
    if isPySpace c then
      if acc = [] then splitWSAux [] cs else acc.reverse :: splitWSAux [] cs
    else splitWSAux (c :: acc) cs

/-- Python `str.split()` with no argument: split on runs of whitespace,
discarding leading and trailing whitespace and empty fields. -/
def splitWS (l : List Char) : List (List Char) :=
  splitWSAux [] l

/-- Numeric value of a list of decimal digit characters. -/
def digitsVal (l : List Char) : ℕ :=
  l.foldl (fun a c => 10 * a + (c.toNat - 48)) 0

/-- Python `int(s)` on an already-stripped string: optional sign followed by
a non-empty digit run; anything else raises `ValueError` (`none`). -/
def pyIntCore (l : List Char) : Option ℤ :=
  match l with
  | '+' :: rest =>
    if rest ≠ [] ∧ rest.all Char.isDigit then some (digitsVal rest) else none
  | '-' :: rest =>
    if rest ≠ [] ∧ rest.all Char.isDigit then some (-(digitsVal rest : ℤ)) else none
  | _ =>
    if l ≠ [] ∧ l.all Char.isDigit then some (digitsVal l) else none

/-- Python `int(s)`: surrounding whitespace is tolerated. -/
def pyInt (l : List Char) : Option ℤ :=
  pyIntCore (stripWS l)

/-- Decimal mantissa of a Python float literal: digits with at most one
point and at least one digit overall.  The value is kept as a numerator
together with a power-of-ten scale so that the final rational is assembled
by a single `mkRat`. -/
def pyMantissa (l : List Char) : Option (ℕ × ℕ) :=
  match splitOnChar '.' l with
  | [ip] =>
    if ip ≠ [] ∧ ip.all Char.isDigit then some (digitsVal ip, 0) else none
  | [ip, fp] =>
    if (ip ≠ [] ∨ fp ≠ []) ∧ ip.all Char.isDigit ∧ fp.all Char.isDigit then
      some (digitsVal ip * 10 ^ fp.length + digitsVal fp, fp.length)
    else none
  | _ => none

/-- Split a float literal at its first exponent marker `e`/`E`, if any. -/
def splitExpMark (l : List Char) : List Char × Option (List Char) :=
  match splitFirst 'e' l with
  | some (m, ex) => (m, some ex)
  | none =>
    match splitFirst 'E' l with
    | some (m, ex) => (m, some ex)
    | none => (l, none)

/-- Python `float(s)` on an already-stripped string: optional sign, decimal
mantissa, optional `e`/`E` exponent (itself a signed digit run).  The exact
decimal value is returned as a rational. -/
def pyFloatCore (l : List Char) : Option ℚ :=
  let sr : ℤ × List Char :=
    match l with
    | '+' :: r => (1, r)
    | '-' :: r => (-1, r)
    | _ => (1, l)
  match splitExpMark sr.2 with
  | (m, none) => (pyMantissa m).map (fun nk => mkRat (sr.1 * nk.1) (10 ^ nk.2))
  | (m, some ex) =>
    match pyMantissa m, pyIntCore ex with
    | some nk, some e =>
      if 0 ≤ e then some (mkRat (sr.1 * nk.1 * 10 ^ e.toNat) (10 ^ nk.2))
      else some (mkRat (sr.1 * nk.1) (10 ^ nk.2 * 10 ^ (-e).toNat))
    | _, _ => none

/-- Python `float(s)`: surrounding whitespace is tolerated. -/
def pyFloat (l : List Char) : Option ℚ :=
  pyFloatCore (stripWS l)

/-- Exception-propagating map over a list, the shape of a Python list
comprehension whose body may raise. -/
def mapExcept {α β ε : Type} (f : α → Except ε β) : List α → Except ε (List β)
  | [] => .ok []
  | a :: as =>
    match f a with
    | .error e => .error e
    | .ok b =>
      match mapExcept f as with
      | .error e => .error e
      | .ok bs => .ok (b :: bs)

/-- Is `needle` a contiguous substring of `hay`? -/
def hasSub (needle : List Char) : List Char → Bool
  | [] => decide (needle = [])
  | c :: cs => needle.isPrefixOf (c :: cs) || hasSub needle cs

instance {ε α : Type} [DecidableEq ε] [DecidableEq α] : DecidableEq (Except ε α) :=
  fun x y =>
    match x, y with
    | .error a, .error b =>
      if h : a = b then .isTrue (by rw [h]) else .isFalse (fun he => h (Except.error.inj he))
    | .ok a, .ok b =>
      if h : a = b then .isTrue (by rw [h]) else .isFalse (fun he => h (Except.ok.inj he))
    | .error _, .ok _ => .isFalse (fun he => Except.noConfusion he)
    | .ok _, .error _ => .isFalse (fun he => Except.noConfusion he)

/-!
## Bit-register model (`bristol_671/registers.py`)

A Python `Enum` class is modelled as its list of `(member name, member
value)` pairs; calling the enum class on a value is lookup by value.
Dynamically-typed arguments whose `.value` attribute is read are modelled
by `PyObj`; reading `.value` of a plain `int` raises `AttributeError`.
-/

/-- Exceptions raised by the register layer. -/
inductive PyErr where
  /-- `AttributeError`: the named attribute is missing on the receiver. -/
  | attributeError (attr : List Char)
  /-- `ValueError` raised by calling an enum class on a non-member value. -/
  | valueErrorEnum (bit : ℕ)
  /-- `AssertionError` from a failed `assert`. -/
  | assertionError
deriving DecidableEq, Repr

/-- A Python value reaching `Bits.get_value` / `Bits.set_value`: either an
enum member (which has a `.value`) or a plain `int` (which does not). -/
inductive PyObj where
  | pyInt (n : ℕ)
  | enumMember (name : List Char) (value : ℕ)
deriving DecidableEq, Repr

/-- Reading the `.value` attribute of a `PyObj`. -/
def attrValue : PyObj → Except PyErr ℕ
  | .pyInt _ => .error (.attributeError "value".toList)
  | .enumMember _ v => .ok v

/-- `EventStatusEnableBits` (register `*ESE?`). -/
def EventStatusEnableBits : List (List Char × ℕ) :=
  [("POWER_ON".toList, 7), ("COMMAND_ERROR".toList, 5),
   ("EXECUTION_ERROR".toList, 4), ("DEVICE_DEPENDENT_ERROR".toList, 3),
   ("QUERY_ERROR".toList, 2), ("OPERATION_COMPLETE".toList, 0)]

/-- `EventStatusBits` (register `*ESR?`). -/
def EventStatusBits : List (List Char × ℕ) :=
  [("POWER_ON".toList, 7), ("COMMAND_ERROR".toList, 5),
   ("EXECUTION_ERROR".toList, 4), ("DEVICE_DEPENDENT_ERROR".toList, 3),
   ("QUERY_ERROR".toList, 2), ("OPERATION_COMPLETE".toList, 0)]

/-- `InstrumentStatusBits` (register `*STB?`). -/
def InstrumentStatusBits : List (List Char × ℕ) :=
  [("BIT_SET_QUESTIONABLE_REGISTER".toList, 5),
   ("ERRORS_IN_ERROR_QUEUE".toList, 3),
   ("BIT_SET_EVENT_STATUS_REGISTER".toList, 2)]

/-- `QuestionableStatusBits` (register `STATUS:QUESTIONABLE:CONDITION?`). -/
def QuestionableStatusBits : List (List Char × ℕ) :=
  [("WAVELENGTH_ALREADY_READ".toList, 0), ("POWER_OUT_OF_RANGE".toList, 3),
   ("TEMPERATURE_OUT_OF_RANGE".toList, 4), ("WAVELENGTH_OUT_OF_RANGE".toList, 5),
   ("PRESSURE_OUT_OF_RANGE".toList, 9), ("REFERENCE_LASER_NOT_STABILIZED".toList, 10)]

/-- Calling an enum class on a raw value: the member with that value, if any. -/
def enumName (enum : List (List Char × ℕ)) (bit : ℕ) : Option (List Char) :=
  (enum.find? (fun p => p.2 = bit)).map (fun p => p.1)

/-- The `Bits` base class: an instrument register as an unsigned word plus
its bit-meaning enumeration, bit count and designated fault bits. -/
structure Bits where
  value : ℕ
  enum : List (List Char × ℕ)
  size : ℕ
  fault_bits : Option (List ℕ)
deriving DecidableEq, Repr

/-- `Bits.get_set_bits`: indices in `[0, size)` whose bit of `value` is set. -/
def get_set_bits (r : Bits) : List ℕ :=
  (List.range r.size).filter (fun i => (r.value >>> i) &&& 1 ≠ 0)

/-- The new word produced by `Bits.set_bit`: `value | (1 << bit)` when
setting, `value & ~(1 << bit)` when clearing (on an unsigned word the
latter is bitwise difference, see `ldiff_models_land_lnot`). -/
def set_bit_value (value bit bit_value : ℕ) : ℕ :=
  if bit_value ≠ 0 then value ||| (1 <<< bit) else Nat.ldiff value (1 <<< bit)

/-- `Bits.set_bit`: asserts the bit value is 0 or 1, then sets or clears. -/
def set_bit (r : Bits) (bit bit_value : ℕ) : Except PyErr Bits :=
  if bit_value = 0 ∨ bit_value = 1 then
    .ok { r with value := set_bit_value r.value bit bit_value }
  else .error .assertionError

/-- `Bits.get_bit`: `value >> bit & 1`. -/
def get_bit (r : Bits) (bit : ℕ) : ℕ :=
  (r.value >>> bit) &&& 1

/-- `Bits.get_value`: reads the argument's `.value` attribute (an
`AttributeError` for a plain `int`) and fetches that bit. -/
def get_value (r : Bits) (x : PyObj) : Except PyErr ℕ :=
  match attrValue x with
  | .error e => .error e
  | .ok v => .ok (get_bit r v)

/-- Calling the enum class on a bit index and taking the member's `.name`:
a `ValueError` for an index with no member. -/
def enumCallName (enum : List (List Char × ℕ)) (bit : ℕ) : Except PyErr (List Char) :=
  match enumName enum bit with
  | some nm => .ok nm
  | none => .error (.valueErrorEnum bit)

/-- `Bits.get_set_values`: names of the set bits, via calling the enum class
on each set bit index (a `ValueError` for an index with no member). -/
def get_set_values (r : Bits) : Except PyErr (List (List Char)) :=
  mapExcept (enumCallName r.enum) (get_set_bits r)

/-- The `Bits.faults` property: passes each raw fault-bit index to
`get_value`, which reads `.value` of an `int`. -/
def faults (r : Bits) : Except PyErr (List ℕ) :=
  match r.fault_bits with
  | none => .ok []
  | some fbs => mapExcept (fun fb => get_value r (.pyInt fb)) fbs

/-- The `Bits.is_ok` property: whether `faults` is empty. -/
def is_ok (r : Bits) : Except PyErr Bool :=
  match faults r with
  | .error e => .error e
  | .ok f => .ok (decide (f.length = 0))

/-- `EventStatusEnableRegister(value)`. -/
def EventStatusEnableRegister (value : ℕ) : Bits :=
  ⟨value, EventStatusEnableBits, 8, some [5, 4, 3, 2]⟩

/-- `EventStatusRegister(value)`. -/
def EventStatusRegister (value : ℕ) : Bits :=
  ⟨value, EventStatusBits, 8, some [5, 4, 3, 2]⟩

/-- `InstrumentStatusByte(value)`. -/
def InstrumentStatusByte (value : ℕ) : Bits :=
  ⟨value, InstrumentStatusBits, 6, some [3]⟩

/-- `QuestionableStatusRegister(value)`. -/
def QuestionableStatusRegister (value : ℕ) : Bits :=
  ⟨value, QuestionableStatusBits, 11, some [0, 3, 4, 5, 9, 10]⟩

/-!
## Response parsers (`bristol_671/conversion_handling.py`)

The canonical parsers.  `convert_environment_old` additionally embeds the
older `bristol671/conversion_handling.py` variant of the environment
parser, which differs in how it isolates the numeric portion.
-/

/-- Exceptions raised by the conversion layer. -/
inductive BristolErr where
  /-- `BristolParseError`, carrying the offending raw response line. -/
  | parseError (raw : List Char)
  /-- A plain `ValueError` carrying its message. -/
  | valueErrorMsg (msg : List Char)
  /-- The `ValueError` raised by `float()` on a bad literal, carrying the
  string it was given. -/
  | floatValueError (token : List Char)
  /-- `IndexError` from subscripting a too-short list. -/
  | indexError
deriving DecidableEq, Repr

/-- `Environment`: data returned by `FETCH/READ/MEASURE:ENV?`. -/
structure Environment where
  temperature : ℚ
  pressure : ℚ
deriving DecidableEq, Repr

/-- `validate_response`: split a response on commas, strip each part, and
require exactly `expected_parts` fields. -/
def validate_response (value : List Char) (expected_parts : ℕ) :
    Except BristolErr (List (List Char)) :=
  let parts := (splitOnChar ',' value).map stripWS
  if parts.length = expected_parts then .ok parts else .error (.parseError value)

/-- `convert_environment_to_environment_data`: parse `"<t> C, <p> MMHG"`.
Each field is split on whitespace and the first token is parsed as a float;
any `IndexError`, `ValueError` or nested parse error is re-raised as a
`BristolParseError` carrying the raw line. -/
def convert_environment_to_environment_data (val : List Char) :
    Except BristolErr Environment :=
  match validate_response val 2 with
  | .error _ => .error (.parseError val)
  | .ok parts =>
    match parts with
    | [temperature_part, pressure_part] =>
      match splitWS temperature_part with
      | [] => .error (.parseError val)
      | t0 :: _ =>
        match pyFloat t0 with
        | none => .error (.parseError val)
        | some temperature =>
          match splitWS pressure_part with
          | [] => .error (.parseError val)
          | p0 :: _ =>
            match pyFloat p0 with
            | none => .error (.parseError val)
            | some pressure => .ok ⟨temperature, pressure⟩
    | _ => .error (.parseError val)

/-- The older `bristol671` variant of the environment parser: splits on
commas and strips the literal unit characters (`"C"`, `"MMHG"`) from the
ends of each field before calling `float`; errors are not wrapped. -/
def convert_environment_old (val : List Char) : Except BristolErr Environment :=
  let values := splitOnChar ',' val
  match values with
  | v0 :: v1 :: rest =>
    match pyFloat (stripSet "C".toList v0) with
    | none => .error (.floatValueError (stripSet "C".toList v0))
    | some temperature =>
      match pyFloat (stripSet "MMHG".toList v1) with
      | none => .error (.floatValueError (stripSet "MMHG".toList v1))
      | some pressure =>
        if rest = [] then .ok ⟨temperature, pressure⟩ else .error .indexError
  | _ => .error .indexError

/-- `parse_system_error`: split at the first comma (a missing comma is a
parse error), parse the stripped head as a signed integer (failure is a
parse error), and return it with the stripped tail, quote characters
removed from both ends. -/
def parse_system_error (val : List Char) : Except BristolErr (ℤ × List Char) :=
  match splitFirst ',' val with
  | none => .error (.parseError val)
  | some (error_code, message) =>
    match pyInt (stripWS error_code) with
    | none => .error (.parseError val)
    | some code => .ok (code, stripPred (fun c => decide (c = '"')) (stripWS message))

/-- The literal (non-interpolated) message of the `ValueError` raised by
`convert_average_state`: the source lacks the `f` string prefix, so the
placeholder text `\x7bval\x7d` is part of the message. -/
def averageStateMsg : List Char :=
  "State not \x27On\x27 or \x27Off\x27 but \x27\x7bval\x7d\x27".toList

/-- `convert_average_state`: `"ON"` is true, `"OFF"` is false, anything else
raises `ValueError` with the fixed message `averageStateMsg`. -/
def convert_average_state (val : List Char) : Except BristolErr Bool :=
  if val = "ON".toList then .ok true
  else if val = "OFF".toList then .ok false
  else .error (.valueErrorMsg averageStateMsg)

/-- `dBm_to_mW`: `10 ** (dBm / 10)`, over the reals. -/
noncomputable def dBm_to_mW (dBm : ℝ) : ℝ :=
  (10 : ℝ) ^ (dBm / 10)

/-- `mW_to_dBm`: `10 * log10(mW / 1)`, over the reals. -/
noncomputable def mW_to_dBm (mW : ℝ) : ℝ :=
  10 * Real.logb 10 (mW / 1)

/-!
## Error taxonomy and error-queue drain (`bristol671/error_codes.py`,
`bristol_671/module.py`)

`drain_error_queue` is modelled over the sequence of raw lines the
instrument's `SYSTEM:ERROR?` queue would return, one per `query` call.
-/

/-- The `SCPIErrors` enumeration. -/
inductive SCPIErrors where
  | NO_ERROR
  | INVALID_CHARACTER
  | SYNTAX_ERROR
  | INVALID_SEPARATOR
  | DATA_TYPE_ERROR
  | PARAMETER_ERROR
  | SETTINGS_CONFLICT
  | DATA_OUT_OF_RANGE
  | DATA_CORRUPT_OR_STALE
deriving DecidableEq, Repr

/-- The integer value of each `SCPIErrors` member. -/
def SCPIErrors.code : SCPIErrors → ℤ
  | .NO_ERROR => 0
  | .INVALID_CHARACTER => -101
  | .SYNTAX_ERROR => -102
  | .INVALID_SEPARATOR => -103
  | .DATA_TYPE_ERROR => -104
  | .PARAMETER_ERROR => -220
  | .SETTINGS_CONFLICT => -221
  | .DATA_OUT_OF_RANGE => -222
  | .DATA_CORRUPT_OR_STALE => -230

/-- Calling `SCPIErrors(code)`: the member with that value, if any. -/
def scpiFromCode (code : ℤ) : Option SCPIErrors :=
  if code = 0 then some .NO_ERROR
  else if code = -101 then some .INVALID_CHARACTER
  else if code = -102 then some .SYNTAX_ERROR
  else if code = -103 then some .INVALID_SEPARATOR
  else if code = -104 then some .DATA_TYPE_ERROR
  else if code = -220 then some .PARAMETER_ERROR
  else if code = -221 then some .SETTINGS_CONFLICT
  else if code = -222 then some .DATA_OUT_OF_RANGE
  else if code = -230 then some .DATA_CORRUPT_OR_STALE
  else none

/-- Exceptions surfaced by `drain_error_queue`. -/
inductive DrainErr where
  /-- `ValueError("max_reads must be > 0")`. -/
  | invalidArgument
  /-- A `BristolParseError` propagated from `parse_system_error`. -/
  | bristol (e : BristolErr)
  /-- `SCPICommandError` for an unrecognised SCPI error code. -/
  | unknownCode (code : ℤ)
  /-- `SCPICommandError`: the queue did not terminate within `max_reads`. -/
  | queueNotTerminated
  /-- `SCPICommandError` listing the active (non-`NO_ERROR`) entries. -/
  | activeErrors (entries : List (SCPIErrors × List Char))
  /-- Model artefact: the supplied response list ran out (a real instrument
  always answers `SYSTEM:ERROR?`). -/
  | queueExhausted
deriving DecidableEq, Repr

/-- One iteration's parsing: `parse_system_error` on the raw line followed
by `SCPIErrors(code)` (an unknown code is an `SCPICommandError`). -/
def parseQueueLine (l : List Char) : Except DrainErr (SCPIErrors × List Char) :=
  match parse_system_error l with
  | .error e => .error (.bristol e)
  | .ok (code, message) =>
    match scpiFromCode code with
    | none => .error (.unknownCode code)
    | some error => .ok (error, message)

/-- The bounded read loop of `drain_error_queue`: parse one line per
iteration, stop (inclusively) at `NO_ERROR`, and fail with
`queueNotTerminated` when the read budget is exhausted first. -/
def drainLoop : List (List Char) → ℕ → Except DrainErr (List (SCPIErrors × List Char))
  | _, 0 => .error .queueNotTerminated
  | [], _ + 1 => .error .queueExhausted
  | r :: rs, n + 1 =>
    match parseQueueLine r with
    | .error e => .error e
    | .ok (error, message) =>
      if error = SCPIErrors.NO_ERROR then .ok [(error, message)]
      else
        match drainLoop rs n with
        | .error e => .error e
        | .ok entries => .ok ((error, message) :: entries)

/-- The `active_errors` comprehension of `drain_error_queue`: the collected
entries whose code is not `NO_ERROR`. -/
def activeEntries (entries : List (SCPIErrors × List Char)) :
    List (SCPIErrors × List Char) :=
  entries.filter (fun p => decide (p.1 ≠ SCPIErrors.NO_ERROR))

/-- `Bristol671.drain_error_queue`: guard `max_reads > 0`, run the bounded
loop, and — when `raise_on_error` is set — fail with the aggregate
`activeErrors` condition if any collected entry is not `NO_ERROR`. -/
def drain_error_queue (responses : List (List Char)) (raise_on_error : Bool)
    (max_reads : ℤ) : Except DrainErr (List (SCPIErrors × List Char)) :=
  if max_reads ≤ 0 then .error .invalidArgument
  else
    match drainLoop responses max_reads.toNat with
    | .error e => .error e
    | .ok entries =>
      if raise_on_error then
        if (activeEntries entries).isEmpty then .ok entries
        else .error (.activeErrors (activeEntries entries))
      else .ok entries

/-!
## Claim theorems
-/

/-- On unsigned words, Python's `value & ~(1 << bit)` (computed in `ℤ` with
two's-complement bitwise operators) is exactly `Nat.ldiff value (1 << bit)`. -/
theorem ldiff_models_land_lnot (v m : ℕ) :
    (Nat.ldiff v m : ℤ) = Int.land (v : ℤ) (Int.lnot (m : ℤ)) := rfl

/-- C1.  The claim says `is_ok` is true iff no fault bit is set.  In the
code, `Bits.faults` hands each raw integer fault-bit index to `get_value`,
which reads the argument's `.value` attribute; an `int` has none, so for
every register variant (all four have a non-empty fault-bit tuple) reading
`is_ok` raises `AttributeError` — for value `0` and for value `1 << 5`
alike, contradicting the repository's own tests. -/
theorem is_ok_raises_attribute_error :
    ∀ v : ℕ,
      is_ok (EventStatusRegister v) = .error (.attributeError "value".toList) ∧
      is_ok (EventStatusEnableRegister v) = .error (.attributeError "value".toList) ∧
      is_ok (InstrumentStatusByte v) = .error (.attributeError "value".toList) ∧
      is_ok (QuestionableStatusRegister v) = .error (.attributeError "value".toList) :=
  fun _ => ⟨rfl, rfl, rfl, rfl⟩

/-- C2.  The claim says `faults` returns the intersection of the set bits
with the fault bits without raising.  In the code, for every register
variant and every value, `faults` raises `AttributeError` on its first
fault-bit index (`get_value` reads `.value` of an `int`). -/
theorem faults_raises_attribute_error :
    ∀ v : ℕ,
      faults (EventStatusRegister v) = .error (.attributeError "value".toList) ∧
      faults (EventStatusEnableRegister v) = .error (.attributeError "value".toList) ∧
      faults (InstrumentStatusByte v) = .error (.attributeError "value".toList) ∧
      faults (QuestionableStatusRegister v) = .error (.attributeError "value".toList) :=
  fun _ => ⟨rfl, rfl, rfl, rfl⟩

/-- C5.  `convert_average_state` maps exactly `"ON"` to true and `"OFF"` to
false and rejects anything else — but the rejection message is the literal
string `State not 'On' or 'Off' but '{val}'` (the source lacks the `f`
prefix), so the offending token (here `"FOO"`) does not appear in it. -/
theorem convert_average_state_message_literal :
    convert_average_state "ON".toList = .ok true ∧
    convert_average_state "OFF".toList = .ok false ∧
    convert_average_state "FOO".toList = .error (.valueErrorMsg averageStateMsg) ∧
    hasSub "FOO".toList averageStateMsg = false := by
  refine ⟨by decide, by decide, by decide, by decide⟩

/-- C9.  For every positive real, decoding after encoding is the identity:
`dBm_to_mW (mW_to_dBm x) = x` (the floating-point claim, read exactly over
the reals). -/
theorem dBm_mW_round_trip (x : ℝ) (hx : 0 < x) : dBm_to_mW (mW_to_dBm x) = x := by
  unfold dBm_to_mW mW_to_dBm
  rw [div_one, mul_div_cancel_left₀ _ (by norm_num : (10 : ℝ) ≠ 0)]
  exact Real.rpow_logb (by norm_num) (by norm_num) hx

/-- Witness for C9 at `x = 4`. -/
theorem dBm_mW_round_trip_witness : dBm_to_mW (mW_to_dBm 4) = 4 :=
  dBm_mW_round_trip 4 (by norm_num)

/-- `value >> bit & 1` reads exactly bit `bit` of an unsigned word. -/
theorem shiftRight_mod_two_eq_testBit (v b : ℕ) :
    (v >>> b) % 2 = if Nat.testBit v b then 1 else 0 := by
  rw [Nat.shiftRight_eq_div_pow, Nat.testBit_to_div_mod]
  rcases Nat.mod_two_eq_zero_or_one (v / 2 ^ b) with h | h <;> simp [h]

/-- C10.  Frame property of `Bits.set_bit`: for a bit value of 0 or 1 the
assertion passes, bit `i` reads back as the written value through
`Bits.get_bit`, every other bit is unchanged, and the register's size,
fault bits and meaning enumeration are untouched. -/
theorem set_bit_frame (r : Bits) (i v : ℕ) (h : v = 0 ∨ v = 1) :
    set_bit r i v = .ok { r with value := set_bit_value r.value i v } ∧
    get_bit { r with value := set_bit_value r.value i v } i = v ∧
    (∀ j, j ≠ i → get_bit { r with value := set_bit_value r.value i v } j = get_bit r j) ∧
    ({ r with value := set_bit_value r.value i v } : Bits).size = r.size ∧
    ({ r with value := set_bit_value r.value i v } : Bits).fault_bits = r.fault_bits ∧
    ({ r with value := set_bit_value r.value i v } : Bits).enum = r.enum := by
  refine ⟨by simp [set_bit, h], ?_, ?_, rfl, rfl, rfl⟩
  · rcases h with rfl | rfl
    · simp [get_bit, set_bit_value, Nat.and_one_is_mod, shiftRight_mod_two_eq_testBit,
        Nat.testBit_ldiff, Nat.shiftLeft_eq, Nat.testBit_two_pow_self]
    · simp [get_bit, set_bit_value, Nat.and_one_is_mod, shiftRight_mod_two_eq_testBit,
        Nat.testBit_lor, Nat.shiftLeft_eq, Nat.testBit_two_pow_self]
  · intro j hj
    rcases h with rfl | rfl
    · simp [get_bit, set_bit_value, Nat.and_one_is_mod, shiftRight_mod_two_eq_testBit,
        Nat.testBit_ldiff, Nat.shiftLeft_eq, Nat.testBit_two_pow_of_ne (fun he => hj he.symm)]
    · simp [get_bit, set_bit_value, Nat.and_one_is_mod, shiftRight_mod_two_eq_testBit,
        Nat.testBit_lor, Nat.shiftLeft_eq, Nat.testBit_two_pow_of_ne (fun he => hj he.symm)]

/-- Witness for C10: writing bit 3 of a fresh `EventStatusRegister(0)`. -/
theorem set_bit_frame_witness :
    set_bit (EventStatusRegister 0) 3 1 =
      .ok { EventStatusRegister 0 with value := set_bit_value 0 3 1 } ∧
    get_bit { EventStatusRegister 0 with value := set_bit_value 0 3 1 } 3 = 1 ∧
    (∀ j, j ≠ 3 → get_bit { EventStatusRegister 0 with value := set_bit_value 0 3 1 } j =
      get_bit (EventStatusRegister 0) j) ∧
    ({ EventStatusRegister 0 with value := set_bit_value 0 3 1 } : Bits).size =
      (EventStatusRegister 0).size ∧
    ({ EventStatusRegister 0 with value := set_bit_value 0 3 1 } : Bits).fault_bits =
      (EventStatusRegister 0).fault_bits ∧
    ({ EventStatusRegister 0 with value := set_bit_value 0 3 1 } : Bits).enum =
      (EventStatusRegister 0).enum :=
  set_bit_frame (EventStatusRegister 0) 3 1 (Or.inr rfl)

/-- When every element of the list maps to a named member, the
exception-propagating comprehension succeeds with exactly the looked-up
names. -/
theorem mapExcept_enum_ok (E : List (List Char × ℕ)) :
    ∀ l : List ℕ, (∀ a ∈ l, (enumName E a).isSome = true) →
      mapExcept (enumCallName E) l = .ok (l.filterMap (enumName E))
  | [], _ => rfl
  | a :: as, h => by
    have ha := h a (List.mem_cons_self a as)
    obtain ⟨b, hb⟩ := Option.isSome_iff_exists.mp ha
    have ih := mapExcept_enum_ok E as (fun x hx => h x (List.mem_cons_of_mem a hx))
    simp [mapExcept, enumCallName, hb, ih, List.filterMap_cons]

/-- C3 counterexample.  The claim says an unnamed set bit is omitted and in
particular `InstrumentStatusByte(1)` yields an empty collection; in the
code `get_set_values` calls the enum class on bit index 0, which is not a
member value of `InstrumentStatusBits`, so it raises `ValueError` instead
of returning anything. -/
theorem get_set_values_unnamed_bit_raises :
    get_set_values (InstrumentStatusByte 1) = .error (.valueErrorEnum 0) ∧
    ∀ names, get_set_values (InstrumentStatusByte 1) ≠ .ok names := by
  refine ⟨by decide, ?_⟩
  intro names h
  rw [show get_set_values (InstrumentStatusByte 1) = .error (.valueErrorEnum 0) from by decide]
    at h
  exact Except.noConfusion h

/-- C3 amended.  `get_set_values` succeeds exactly when every set bit has a
symbolic name in the register's meaning enumeration, and then returns those
names (in ascending bit order); a set bit with no name raises `ValueError`
rather than being omitted. -/
theorem get_set_values_all_named (r : Bits)
    (h : ∀ b ∈ get_set_bits r, (enumName r.enum b).isSome = true) :
    get_set_values r = .ok ((get_set_bits r).filterMap (enumName r.enum)) :=
  mapExcept_enum_ok r.enum (get_set_bits r) h

/-- Witness for C3's amended claim: `InstrumentStatusByte(4)` has exactly
bit 2 set, which is named. -/
theorem get_set_values_all_named_witness :
    get_set_values (InstrumentStatusByte 4) =
      .ok ((get_set_bits (InstrumentStatusByte 4)).filterMap
        (enumName (InstrumentStatusByte 4).enum)) :=
  get_set_values_all_named (InstrumentStatusByte 4) (by decide)

/-- `splitFirst` finds nothing when the separator is absent. -/
theorem splitFirst_eq_none (sep : Char) :
    ∀ l : List Char, sep ∉ l → splitFirst sep l = none
  | [], _ => rfl
  | c :: cs, h => by
    have hc : ¬c = sep := fun he => h (he ▸ List.mem_cons_self c cs)
    have ih := splitFirst_eq_none sep cs (fun hm => h (List.mem_cons_of_mem c hm))
    simp [splitFirst, hc, ih]

/-- `splitFirst` splits exactly at the first occurrence of the separator. -/
theorem splitFirst_append (sep : Char) :
    ∀ a b : List Char, sep ∉ a → splitFirst sep (a ++ sep :: b) = some (a, b)
  | [], b, _ => by simp [splitFirst]
  | c :: a', b, h => by
    have hc : ¬c = sep := fun he => h (he ▸ List.mem_cons_self c a')
    have ih := splitFirst_append sep a' b (fun hm => h (List.mem_cons_of_mem c hm))
    simp [splitFirst, hc, ih]

/-- C6 counterexample.  The claim says exactly one layer of surrounding
double-quotes is stripped from the message, so `'0, ""x""'` should yield
the message `"x"` (quotes included).  The code uses `strip('"')`, which
removes every leading and trailing quote character: the message comes back
as plain `x`. -/
theorem parse_system_error_strips_all_quotes :
    parse_system_error "0, \"\"x\"\"".toList = .ok (0, "x".toList) ∧
    parse_system_error "0, \"\"x\"\"".toList ≠ .ok (0, "\"x\"".toList) := by
  refine ⟨by decide, ?_⟩
  intro h
  rw [show parse_system_error "0, \"\"x\"\"".toList = .ok (0, "x".toList) from by decide] at h
  have := Except.ok.inj h
  simp [Prod.ext_iff] at this

/-- C6 amended.  `parse_system_error` splits on the first comma only and
fails with a parse error when no comma is present; the portion before the
comma is trimmed and parsed as a signed integer (failure is a parse
error); the returned message is the portion after the comma, trimmed, with
ALL surrounding double-quote characters stripped. -/
theorem parse_system_error_spec :
    (∀ l : List Char, ',' ∉ l → parse_system_error l = .error (.parseError l)) ∧
    (∀ (a b : List Char) (n : ℤ), ',' ∉ a → pyInt (stripWS a) = some n →
      parse_system_error (a ++ ',' :: b) =
        .ok (n, stripPred (fun c => decide (c = '"')) (stripWS b))) ∧
    (∀ a b : List Char, ',' ∉ a → pyInt (stripWS a) = none →
      parse_system_error (a ++ ',' :: b) = .error (.parseError (a ++ ',' :: b))) := by
  refine ⟨?_, ?_, ?_⟩
  · intro l hl
    simp [parse_system_error, splitFirst_eq_none ',' l hl]
  · intro a b n ha hn
    simp [parse_system_error, splitFirst_append ',' a b ha, hn]
  · intro a b ha hn
    simp [parse_system_error, splitFirst_append ',' a b ha, hn]

/-- Witness for C6's amended claim at `'-101, "Invalid character"'` and at
the comma-less line `"-101 Invalid character"`. -/
theorem parse_system_error_spec_witness :
    parse_system_error "-101 Invalid character".toList =
      .error (.parseError "-101 Invalid character".toList) ∧
    parse_system_error ("-101".toList ++ ',' :: " \"Invalid character\"".toList) =
      .ok (-101, stripPred (fun c => decide (c = '"'))
        (stripWS " \"Invalid character\"".toList)) :=
  ⟨parse_system_error_spec.1 "-101 Invalid character".toList (by decide),
   parse_system_error_spec.2.1 "-101".toList " \"Invalid character\"".toList (-101)
     (by decide) (by decide)⟩

/-- The drain loop consumes the queue up to and including the first
`NO_ERROR` entry when that entry arrives within the read budget, returning
every parsed entry in order. -/
theorem drainLoop_ok :
    ∀ (pre : List (SCPIErrors × List Char)) (fm : List Char)
      (rs rest : List (List Char)) (n : ℕ),
      List.Forall₂ (fun r p => parseQueueLine r = .ok p)
        rs (pre ++ [(SCPIErrors.NO_ERROR, fm)]) →
      (∀ p ∈ pre, p.1 ≠ SCPIErrors.NO_ERROR) →
      pre.length < n →
      drainLoop (rs ++ rest) n = .ok (pre ++ [(SCPIErrors.NO_ERROR, fm)])
  | [], fm, rs, rest, n, hf, _, hn => by
    cases hf with
    | cons hr htail =>
      cases htail
      cases n with
      | zero => omega
      | succ m => simp [drainLoop, hr]
  | p :: pre', fm, rs, rest, n, hf, hpre, hn => by
    cases hf with
    | @cons r a rs' l₂ hr htail =>
      cases n with
      | zero => omega
      | succ m =>
        have hp1 : ¬p.1 = SCPIErrors.NO_ERROR := hpre p (List.mem_cons_self p pre')
        have ih := drainLoop_ok pre' fm rs' rest m htail
          (fun q hq => hpre q (List.mem_cons_of_mem p hq)) (by simpa using hn)
        obtain ⟨e, msg⟩ := p
        simp only [List.cons_append, drainLoop, hr]
        simp only [ne_eq] at hp1
        simp [hp1, ih]

/-- C7.  For a queue whose first `NO_ERROR` entry arrives within
`max_reads` well-formed reads, `drain_error_queue` returns the full
ordered entry list including the terminal `NO_ERROR` entry; with
`raise_on_error` set it succeeds when no earlier entry is active and
otherwise fails — after the whole queue has been consumed — with the
aggregate condition listing exactly the active entries. -/
theorem drain_error_queue_full_drain
    (rs rest : List (List Char)) (pre : List (SCPIErrors × List Char))
    (fm : List Char) (mr : ℤ)
    (hf : List.Forall₂ (fun r p => parseQueueLine r = .ok p)
      rs (pre ++ [(SCPIErrors.NO_ERROR, fm)]))
    (hpre : ∀ p ∈ pre, p.1 ≠ SCPIErrors.NO_ERROR)
    (hmr : (pre.length : ℤ) < mr) :
    drain_error_queue (rs ++ rest) false mr = .ok (pre ++ [(SCPIErrors.NO_ERROR, fm)]) ∧
    (pre = [] →
      drain_error_queue (rs ++ rest) true mr = .ok (pre ++ [(SCPIErrors.NO_ERROR, fm)])) ∧
    (pre ≠ [] →
      drain_error_queue (rs ++ rest) true mr = .error (.activeErrors pre)) := by
  have hpos : ¬mr ≤ 0 := by
    have : (0 : ℤ) ≤ (pre.length : ℤ) := Int.natCast_nonneg _
    omega
  have hlt : pre.length < mr.toNat := by omega
  have hloop := drainLoop_ok pre fm rs rest mr.toNat hf hpre hlt
  have h1 : pre.filter (fun p => decide (p.1 ≠ SCPIErrors.NO_ERROR)) = pre :=
    List.filter_eq_self.mpr (fun p hp => decide_eq_true (hpre p hp))
  have hfilter : activeEntries (pre ++ [(SCPIErrors.NO_ERROR, fm)]) = pre := by
    unfold activeEntries
    rw [List.filter_append, h1]
    simp
  refine ⟨?_, ?_, ?_⟩
  · simp [drain_error_queue, if_neg hpos, hloop]
  · intro hnil
    subst hnil
    simp at hfilter
    simp [drain_error_queue, if_neg hpos, hloop, hfilter]
  · intro hne
    have hpe : pre.isEmpty = false := by
      cases pre with
      | nil => exact absurd rfl hne
      | cons a l => rfl
    simp [drain_error_queue, if_neg hpos, hloop, hfilter, hpe]

/-- Witness for C7: the two-line queue from the repository's tests, with the
default read budget 32. -/
theorem drain_error_queue_full_drain_witness :
    drain_error_queue
        ["-101, \"Invalid character\"".toList, "0, \"No error\"".toList] false 32 =
      .ok [(SCPIErrors.INVALID_CHARACTER, "Invalid character".toList),
        (SCPIErrors.NO_ERROR, "No error".toList)] ∧
    drain_error_queue
        ["-101, \"Invalid character\"".toList, "0, \"No error\"".toList] true 32 =
      .error (.activeErrors [(SCPIErrors.INVALID_CHARACTER, "Invalid character".toList)]) := by
  have h := drain_error_queue_full_drain
    ["-101, \"Invalid character\"".toList, "0, \"No error\"".toList] []
    [(SCPIErrors.INVALID_CHARACTER, "Invalid character".toList)] "No error".toList 32
    (List.Forall₂.cons (by decide) (List.Forall₂.cons (by decide) List.Forall₂.nil))
    (by decide) (by decide)
  exact ⟨h.1, h.2.2 (by decide)⟩

/-- A zero read budget immediately reports a non-terminating queue. -/
theorem drainLoop_zero (rs : List (List Char)) :
    drainLoop rs 0 = .error .queueNotTerminated := by
  cases rs <;> rfl

/-- The drain loop never looks beyond its read budget: responses past the
first `n` are irrelevant. -/
theorem drainLoop_budget :
    ∀ (n : ℕ) (rs extra : List (List Char)), n ≤ rs.length →
      drainLoop (rs ++ extra) n = drainLoop rs n
  | 0, rs, extra, _ => by rw [drainLoop_zero, drainLoop_zero]
  | n + 1, [], _, h => by simp at h
  | n + 1, r :: rs', extra, h => by
    have ih := drainLoop_budget n rs' extra (by simpa using h)
    cases hp : parseQueueLine r with
    | error e => simp [drainLoop, hp]
    | ok pm =>
      obtain ⟨e, m⟩ := pm
      by_cases he : e = SCPIErrors.NO_ERROR
      · simp [drainLoop, hp, he]
      · simp [drainLoop, hp, he, ih]

/-- If none of the first `n` well-formed entries is `NO_ERROR`, the loop
exhausts its budget and fails with `queueNotTerminated`. -/
theorem drainLoop_no_terminator :
    ∀ (n : ℕ) (rs : List (List Char)) (ps : List (SCPIErrors × List Char)),
      List.Forall₂ (fun r p => parseQueueLine r = .ok p) rs ps →
      n ≤ rs.length →
      (∀ p ∈ ps.take n, p.1 ≠ SCPIErrors.NO_ERROR) →
      drainLoop rs n = .error .queueNotTerminated
  | 0, rs, _, _, _, _ => drainLoop_zero rs
  | n + 1, rs, ps, hf, hlen, hno => by
    cases hf with
    | nil => simp at hlen
    | @cons r p rs' ps' hr htail =>
      have hp1 : ¬p.1 = SCPIErrors.NO_ERROR := by
        have := hno p (by simp [List.take_cons])
        simpa using this
      have ih := drainLoop_no_terminator n rs' ps' htail (by simpa using hlen)
        (fun q hq => hno q (by simp [List.take_cons]; exact Or.inr hq))
      obtain ⟨e, m⟩ := p
      simp only [drainLoop, hr]
      simp only [ne_eq] at hp1
      simp [hp1, ih]

/-- C8.  `drain_error_queue` rejects a non-positive `max_reads` up front
with the invalid-argument condition; it reads at most `max_reads` lines
from the queue; and when no `NO_ERROR` entry appears among the first
`max_reads` well-formed reads it fails with the queue-did-not-terminate
condition rather than returning a truncated list. -/
theorem drain_error_queue_bounds :
    (∀ (responses : List (List Char)) (b : Bool) (mr : ℤ), mr ≤ 0 →
      drain_error_queue responses b mr = .error .invalidArgument) ∧
    (∀ (rs extra : List (List Char)) (b : Bool) (mr : ℤ), mr.toNat ≤ rs.length →
      drain_error_queue (rs ++ extra) b mr = drain_error_queue rs b mr) ∧
    (∀ (rs : List (List Char)) (ps : List (SCPIErrors × List Char)) (b : Bool) (mr : ℤ),
      0 < mr →
      List.Forall₂ (fun r p => parseQueueLine r = .ok p) rs ps →
      mr.toNat ≤ rs.length →
      (∀ p ∈ ps.take mr.toNat, p.1 ≠ SCPIErrors.NO_ERROR) →
      drain_error_queue rs b mr = .error .queueNotTerminated) := by
  refine ⟨?_, ?_, ?_⟩
  · intro responses b mr h
    simp [drain_error_queue, h]
  · intro rs extra b mr hlen
    by_cases h : mr ≤ 0
    · simp [drain_error_queue, h]
    · simp [drain_error_queue, h, drainLoop_budget mr.toNat rs extra hlen]
  · intro rs ps b mr hmr hf hlen hno
    have h : ¬mr ≤ 0 := by omega
    simp [drain_error_queue, h, drainLoop_no_terminator mr.toNat rs ps hf hlen hno]

/-- Witness for C8: a read budget of one and a first response that is a
well-formed active error fails with the queue-did-not-terminate condition
(the max_reads = 1 scenario of the claim). -/
theorem drain_error_queue_bounds_witness :
    drain_error_queue ["-101, \"Invalid character\"".toList] false 1 =
      .error .queueNotTerminated :=
  drain_error_queue_bounds.2.2 ["-101, \"Invalid character\"".toList]
    [(SCPIErrors.INVALID_CHARACTER, "Invalid character".toList)] false 1
    (by decide) (List.Forall₂.cons (by decide) List.Forall₂.nil) (by decide) (by decide)

theorem splitOnChar_not_mem (sep : Char) :
    ∀ l : List Char, sep ∉ l → splitOnChar sep l = [l]
  | [], _ => rfl
  | c :: cs, h => by
    have hc : ¬c = sep := fun he => h (he ▸ List.mem_cons_self c cs)
    have ih := splitOnChar_not_mem sep cs (fun hm => h (List.mem_cons_of_mem c hm))
    simp [splitOnChar, hc, ih]

theorem splitOnChar_append (sep : Char) :
    ∀ a b : List Char, sep ∉ a →
      splitOnChar sep (a ++ sep :: b) = a :: splitOnChar sep b
  | [], b, _ => by simp [splitOnChar]
  | c :: a', b, h => by
    have hc : ¬c = sep := fun he => h (he ▸ List.mem_cons_self c a')
    have ih := splitOnChar_append sep a' b (fun hm => h (List.mem_cons_of_mem c hm))
    simp [splitOnChar, hc, ih]

theorem spaces_succ (n : ℕ) : spaces (n + 1) = ' ' :: spaces n := rfl

theorem reverse_spaces (n : ℕ) : (spaces n).reverse = spaces n :=
  List.reverse_replicate n ' '

theorem dropWhile_spaces :
    ∀ (n : ℕ) (r : List Char),
      List.dropWhile isPySpace (spaces n ++ r) = List.dropWhile isPySpace r
  | 0, r => rfl
  | n + 1, r => by
    rw [spaces_succ, List.cons_append, List.dropWhile_cons]
    simp [dropWhile_spaces n r, isPySpace]

theorem not_mem_spaces (c : Char) (n : ℕ) (h : c ≠ ' ') : c ∉ spaces n := by
  intro hm
  exact h (List.eq_of_mem_replicate hm)

theorem dropWhile_cons_of_false {p : Char → Bool} {c : Char} (l : List Char)
    (h : p c = false) : List.dropWhile p (c :: l) = c :: l := by
  simp [List.dropWhile_cons, h]

theorem stripWS_field (a b k : ℕ) (t sfx : List Char) (ht : t ≠ []) (hsfx : sfx ≠ [])
    (h1 : ∀ c ∈ t, isPySpace c = false) (h2 : ∀ c ∈ sfx, isPySpace c = false) :
    stripWS (spaces a ++ (t ++ spaces k ++ sfx) ++ spaces b) = t ++ spaces k ++ sfx := by
  obtain ⟨c, t', rfl⟩ := List.exists_cons_of_ne_nil ht
  obtain ⟨d, s', hs⟩ := List.exists_cons_of_ne_nil (fun he => hsfx (List.reverse_eq_nil_iff.mp he) : sfx.reverse ≠ [])
  have hd : isPySpace d = false := h2 d (List.mem_reverse.mp (hs ▸ List.mem_cons_self d s'))
  have hc : isPySpace c = false := h1 c (List.mem_cons_self c t')
  unfold stripWS stripPred
  rw [show spaces a ++ ((c :: t') ++ spaces k ++ sfx) ++ spaces b
      = spaces a ++ (c :: (t' ++ spaces k ++ sfx ++ spaces b)) from by simp,
    dropWhile_spaces, dropWhile_cons_of_false _ hc]
  rw [show (c :: (t' ++ spaces k ++ sfx ++ spaces b)).reverse
      = spaces b ++ (sfx.reverse ++ ((spaces k).reverse ++ (t'.reverse ++ [c]))) from by simp [reverse_spaces],
    dropWhile_spaces, hs, List.cons_append, dropWhile_cons_of_false _ hd]
  rw [show d :: (s' ++ ((spaces k).reverse ++ (t'.reverse ++ [c]))) = (d :: s') ++ ((spaces k).reverse ++ (t'.reverse ++ [c])) from rfl, ← hs]
  simp [reverse_spaces]

theorem splitWSAux_spaces :
    ∀ (n : ℕ) (r : List Char), splitWSAux [] (spaces n ++ r) = splitWSAux [] r
  | 0, r => rfl
  | n + 1, r => by
    rw [spaces_succ, List.cons_append]
    show splitWSAux [] (' ' :: (spaces n ++ r)) = splitWSAux [] r
    rw [show splitWSAux [] (' ' :: (spaces n ++ r)) = splitWSAux [] (spaces n ++ r) from by
      simp [splitWSAux, isPySpace]]
    exact splitWSAux_spaces n r

theorem splitWSAux_token :
    ∀ (t : List Char) (acc r : List Char), (∀ c ∈ t, isPySpace c = false) →
      splitWSAux acc (t ++ r) = splitWSAux (t.reverse ++ acc) r
  | [], acc, r, _ => by simp
  | c :: t', acc, r, h => by
    have hc : isPySpace c = false := h c (List.mem_cons_self c t')
    have ih := splitWSAux_token t' (c :: acc) r (fun x hx => h x (List.mem_cons_of_mem c hx))
    rw [List.cons_append, show splitWSAux acc (c :: (t' ++ r)) = splitWSAux (c :: acc) (t' ++ r) from by
      simp [splitWSAux, hc], ih]
    simp

theorem splitWSAux_flush (acc r : List Char) (hacc : acc ≠ []) :
    splitWSAux acc (' ' :: r) = acc.reverse :: splitWSAux [] r := by
  simp [splitWSAux, isPySpace, hacc]

theorem splitWS_two_tokens (t sfx : List Char) (k : ℕ) (ht : t ≠ []) (hsfx : sfx ≠ [])
    (h1 : ∀ c ∈ t, isPySpace c = false) (h2 : ∀ c ∈ sfx, isPySpace c = false) :
    splitWS (t ++ spaces (k + 1) ++ sfx) = [t, sfx] := by
  unfold splitWS
  rw [show t ++ spaces (k + 1) ++ sfx = t ++ (spaces (k + 1) ++ sfx) from by simp,
    splitWSAux_token t [] (spaces (k + 1) ++ sfx) h1, spaces_succ, List.cons_append,
    splitWSAux_flush _ _ (by simp [ht]), splitWSAux_spaces,
    show (sfx : List Char) = sfx ++ [] from by simp,
    splitWSAux_token sfx [] [] h2]
  simp [splitWSAux, List.reverse_eq_nil_iff, hsfx]

theorem parse_environment_spaced_ok
    (w1 w2 w3 w4 w5 w6 : ℕ) (t p : List Char) (qt qp : ℚ)
    (ht : t ≠ []) (hpn : p ≠ [])
    (hts : ∀ c ∈ t, isPySpace c = false) (hps : ∀ c ∈ p, isPySpace c = false)
    (htc : ',' ∉ t) (hpc : ',' ∉ p)
    (hqt : pyFloat t = some qt) (hqp : pyFloat p = some qp) :
    convert_environment_to_environment_data
      ((spaces w1 ++ (t ++ spaces (w2 + 1) ++ "C".toList) ++ spaces w3) ++ ',' ::
        (spaces w4 ++ (p ++ spaces (w5 + 1) ++ "MMHG".toList) ++ spaces w6)) =
      .ok ⟨qt, qp⟩ := by
  have hnc1 : ',' ∉ spaces w1 ++ (t ++ spaces (w2 + 1) ++ "C".toList) ++ spaces w3 := by
    simp [spaces, List.mem_append, List.mem_replicate, htc]
  have hnc2 : ',' ∉ spaces w4 ++ (p ++ spaces (w5 + 1) ++ "MMHG".toList) ++ spaces w6 := by
    simp [spaces, List.mem_append, List.mem_replicate, hpc]
  have hsplit := splitOnChar_append ','
    (spaces w1 ++ (t ++ spaces (w2 + 1) ++ "C".toList) ++ spaces w3)
    (spaces w4 ++ (p ++ spaces (w5 + 1) ++ "MMHG".toList) ++ spaces w6) hnc1
  rw [splitOnChar_not_mem ',' _ hnc2] at hsplit
  have hf1 := stripWS_field w1 w3 (w2 + 1) t "C".toList ht (by decide) hts (by decide)
  have hf2 := stripWS_field w4 w6 (w5 + 1) p "MMHG".toList hpn (by decide) hps (by decide)
  have hw1 := splitWS_two_tokens t "C".toList w2 ht (by decide) hts (by decide)
  have hw2 := splitWS_two_tokens p "MMHG".toList w5 hpn (by decide) hps (by decide)
  simp only [List.append_assoc, List.cons_append, List.nil_append, String.toList] at hsplit hf1 hf2 hw1 hw2 ⊢
  simp [convert_environment_to_environment_data, validate_response, hsplit, hf1, hf2,
    hw1, hw2, hqt, hqp]

/-- C4 counterexample.  The claim says the unit suffix may sit immediately
adjacent to the number; in the canonical parser the field `"25.4C"` is a
single whitespace token, `float("25.4C")` fails, and the whole line is
rejected with a parse error.  (The older `bristol671` variant conversely
accepts the adjacent form but chokes on the claim's own whitespace-
separated example, because `strip("C")` cannot remove the trailing blank.) -/
theorem parse_environment_adjacent_suffix_fails :
    convert_environment_to_environment_data "25.4C, 755.2MMHG".toList =
      .error (.parseError "25.4C, 755.2MMHG".toList) ∧
    (∀ env, convert_environment_to_environment_data "25.4C, 755.2MMHG".toList ≠ .ok env) ∧
    convert_environment_old " 25.4 C ,  755.2 MMHG ".toList =
      .error (.floatValueError " 25.4 C ".toList) := by
  refine ⟨by decide, ?_, by decide⟩
  intro env h
  rw [show convert_environment_to_environment_data "25.4C, 755.2MMHG".toList =
      .error (.parseError "25.4C, 755.2MMHG".toList) from by decide] at h
  exact Except.noConfusion h

/-- Witness for C4's amended claim: the claim's own spaced example
`" 25.4 C ,  755.2 MMHG "` parses to exactly (25.4, 755.2). -/
theorem parse_environment_spaced_ok_witness :
    convert_environment_to_environment_data " 25.4 C ,  755.2 MMHG ".toList =
      .ok ⟨mkRat 254 10, mkRat 7552 10⟩ := by
  have h := parse_environment_spaced_ok 1 0 1 2 0 1 "25.4".toList "755.2".toList
    (mkRat 254 10) (mkRat 7552 10) (by decide) (by decide) (by decide) (by decide)
    (by decide) (by decide) (by decide) (by decide)
  exact h
